import Mathlib

/-!
# Shopware analytics: batching consumer core

A shallow embedding of the event pipeline of the repository:

* `backend/internal/models/event.go`      : `Event`, `ValidEventTypes`
* `backend/internal/handlers/handlers.go` : `Handler.HandleEvent`
* `backend/internal/consumer/consumer.go` : `Consumer.Start`, `Consumer.flushBatch`
* `go-ingestion/main.go`                  : `Server.HandleEvent`
* `go-consumer/main.go`                   : `Consumer.Start`, `Consumer.flush`

The SQL store, the channel, the ticker, the signal and the broker are the
environment.  The store is modelled as the list of committed rows together
with the uncommitted writes of the open transaction; every call that can
return an error in the source consults a fault oracle.
-/

namespace Analytics

/-! ## models/event.go -/

/-- Event of `models/event.go` (the two `main.go` variants declare the same
struct).  `Timestamp` is the instant in nanoseconds, `OrderAmount` the
float64 carried as its 64-bit pattern; both are only ever copied. -/
structure Event where
  EventType : String
  Timestamp : Int
  ProductID : Option String
  OrderAmount : Option Nat
  deriving DecidableEq, Repr

/-- The map `ValidEventTypes`: a lookup yields `true` on the three keys and
the zero value `false` on every other string. -/
def ValidEventTypes (t : String) : Bool :=
  t == "page_view" || t == "add_to_cart" || t == "purchase"

/-! ## Storage: table `events` and its transactions -/

/-- One row of table `events`, restricted to the four columns the INSERT
statement names (`id` and `created_at` are assigned by the store). -/
structure Row where
  event_type : String
  timestamp : Int
  product_id : Option String
  order_amount : Option Nat
  deriving DecidableEq, Repr

/-- The arguments of `stmt.Exec(event.EventType, event.Timestamp,
event.ProductID, event.OrderAmount)` as the row they insert. -/
def Event.toRow (e : Event) : Row :=
  { event_type := e.EventType, timestamp := e.Timestamp,
    product_id := e.ProductID, order_amount := e.OrderAmount }

/-- The committed, visible rows of the table, oldest first. -/
structure DB where
  rows : List Row
  deriving DecidableEq, Repr

/-- An open transaction: the rows written so far, not yet visible. -/
structure Tx where
  pending : List Row
  deriving DecidableEq, Repr

/-- Fault oracle for one call of the committer: which of `Begin`, `Prepare`,
the i-th `Exec` (counted from 0 within the batch) and `Commit` returns an
error. -/
structure Faults where
  beginErr : Bool
  prepareErr : Bool
  execErr : Nat → Bool
  commitErr : Bool

/-- The oracle under which nothing fails. -/
def Faults.none : Faults :=
  { beginErr := false, prepareErr := false, execErr := fun _ => false, commitErr := false }

/-- Begin, prepare, each of the `n` inserts and commit all succeed. -/
def Faults.ok (f : Faults) (n : Nat) : Bool :=
  !f.beginErr && !f.prepareErr && (List.range n).all (fun i => !f.execErr i) && !f.commitErr

/-- Outcome of `db.Begin()`: an empty transaction, or an error. -/
def DB.Begin (_db : DB) (f : Faults) : Option Tx :=
  if f.beginErr then Option.none else some { pending := [] }

/-- Outcome of `tx.Prepare(...)`: a statement (no data), or an error. -/
def Tx.Prepare (_tx : Tx) (f : Faults) : Option Unit :=
  if f.prepareErr then Option.none else some ()

/-- Outcome of the i-th `stmt.Exec(...)`: the row joins the transaction, or an
error. -/
def Tx.Exec (tx : Tx) (f : Faults) (i : Nat) (e : Event) : Option Tx :=
  if f.execErr i then Option.none else some { pending := tx.pending ++ [e.toRow] }

/-- Outcome of `tx.Commit()`: the pending rows become visible after the old
ones, or an error and nothing becomes visible. -/
def Tx.Commit (tx : Tx) (db : DB) (f : Faults) : Option DB :=
  if f.commitErr then Option.none else some { rows := db.rows ++ tx.pending }

/-- Outcome of `tx.Rollback()`: the pending rows are dropped. -/
def Tx.Rollback (_tx : Tx) (db : DB) : DB := db

/-- The loop `for _, event := range batch { stmt.Exec(...) }`, from index `i`;
`none` when an insert returned an error (the source returns there). -/
def execLoop (f : Faults) : Nat → Tx → List Event → Option Tx
  | _, tx, [] => some tx
  | i, tx, e :: es =>
    match tx.Exec f i e with
    | Option.none => Option.none
    | some tx1 => execLoop f (i + 1) tx1 es

/-- `Consumer.flushBatch` of `consumer.go`: the store after the call.  The
deferred `tx.Rollback()` runs on every return after a successful `Begin`. -/
def flushBatch (db : DB) (f : Faults) (batch : List Event) : DB :=
  match db.Begin f with
  | Option.none => db
  | some tx =>
    match tx.Prepare f with
    | Option.none => tx.Rollback db
    | some _ =>
      match execLoop f 0 tx batch with
      | Option.none => tx.Rollback db
      | some tx1 =>
        match tx1.Commit db f with
        | Option.none => tx1.Rollback db
        | some db1 => db1

/-! ## go-consumer/main.go -/

/-- The fields of the broker variant's `Consumer` the loop reads and writes:
the batch and the store.  `running` is false once `Start` has returned. -/
structure BConsumer where
  batch : List Event
  db : DB
  running : Bool
  deriving DecidableEq, Repr

/-- `Consumer.flush` of `go-consumer/main.go`.  The batch is reset by
`c.batch = c.batch[:0]` on the last line only; every error return leaves it as
it was. -/
def BConsumer.flush (c : BConsumer) (f : Faults) : BConsumer :=
  if c.batch.length = 0 then c
  else
    match c.db.Begin f with
    | Option.none => c
    | some tx =>
      match tx.Prepare f with
      | Option.none => { c with db := tx.Rollback c.db }
      | some _ =>
        match execLoop f 0 tx c.batch with
        | Option.none => { c with db := tx.Rollback c.db }
        | some tx1 =>
          match tx1.Commit c.db f with
          | Option.none => c
          | some db1 => { c with db := db1, batch := [] }

/-- What the `select` of the broker consumer's loop yields: a message whose
payload `json.Unmarshal` decoded (`some e`) or rejected (`none`), a tick, or
a signal. -/
inductive BCase where
  | message (decoded : Option Event)
  | tick
  | signal
  deriving DecidableEq, Repr

/-- One iteration of the loop of `Consumer.Start` in `go-consumer/main.go`;
`f` is the oracle of the flush this iteration may run. -/
def BConsumer.step (c : BConsumer) (i : BCase) (f : Faults) : BConsumer :=
  if c.running then
    match i with
    | BCase.message Option.none => c
    | BCase.message (some e) =>
      let c1 := { c with batch := c.batch ++ [e] }
      if c1.batch.length ≥ 100 then c1.flush f else c1
    | BCase.tick => c.flush f
    | BCase.signal => { c.flush f with running := false }
  else c

/-- The loop run over a finite sequence of select outcomes. -/
def BConsumer.run (c : BConsumer) : List (BCase × Faults) → BConsumer
  | [] => c
  | (i, f) :: rest => (c.step i f).run rest

/-- The events appended to the batch along a sequence of select outcomes:
those decoded before the first signal. -/
def BConsumer.received : List (BCase × Faults) → List Event
  | [] => []
  | (BCase.message (some e), _) :: rest => e :: BConsumer.received rest
  | (BCase.signal, _) :: _ => []
  | _ :: rest => BConsumer.received rest

/-! ## backend/internal/consumer/consumer.go -/

/-- State of the in-process pipeline: the buffered channel `eventQueue` (head
is the next event delivered) with its capacity, the local `batch` of `Start`,
the store, and whether `Start` is still looping.  `handed` is a history
variable: the arguments of the calls of `flushBatch`, oldest first. -/
structure Pipeline where
  queue : List Event
  cap : Nat
  batch : List Event
  db : DB
  running : Bool
  handed : List (List Event)
  deriving DecidableEq, Repr

/-- What the `select` of `Consumer.Start` yields: an event from the channel, a
tick, or `ctx.Done()`. -/
inductive Case where
  | recv (e : Event)
  | tick
  | done
  deriving DecidableEq, Repr

/-- One iteration of the loop of `Consumer.Start` on the select outcome `i`;
`f` is the oracle of the flush this iteration may run. -/
def Pipeline.step (s : Pipeline) (i : Case) (f : Faults) : Pipeline :=
  if s.running then
    match i with
    | Case.recv e =>
      let batch := s.batch ++ [e]
      if batch.length ≥ 100 then
        { s with db := flushBatch s.db f batch, batch := [], handed := s.handed ++ [batch] }
      else { s with batch := batch }
    | Case.tick =>
      if s.batch.length > 0 then
        { s with db := flushBatch s.db f s.batch, batch := [], handed := s.handed ++ [s.batch] }
      else s
    | Case.done =>
      if s.batch.length > 0 then
        { s with db := flushBatch s.db f s.batch, running := false,
                 handed := s.handed ++ [s.batch] }
      else { s with running := false }
  else s

/-- The loop run over a finite sequence of select outcomes. -/
def Pipeline.run (s : Pipeline) : List (Case × Faults) → Pipeline
  | [] => s
  | (i, f) :: rest => (s.step i f).run rest

/-- The events the loop takes from the channel along a sequence of select
outcomes: those before the first `done`. -/
def Pipeline.received : List (Case × Faults) → List Event
  | [] => []
  | (Case.recv e, _) :: rest => e :: Pipeline.received rest
  | (Case.done, _) :: _ => []
  | _ :: rest => Pipeline.received rest

/-- The channel receive `event := <-c.eventQueue` followed by the loop body:
enabled when the channel holds an event, which leaves the queue at its head. -/
def Pipeline.dequeue (s : Pipeline) (f : Faults) : Option Pipeline :=
  match s.queue with
  | [] => Option.none
  | e :: q => some ({ s with queue := q }.step (Case.recv e) f)

/-- The branch `case <-c.ctx.Done()` taken by the select: the loop body on
`done`; the channel is not read. -/
def Pipeline.shutdown (s : Pipeline) (f : Faults) : Pipeline :=
  s.step Case.done f

/-! ## handlers.go and go-ingestion/main.go -/

/-- `Handler.HandleEvent` of `handlers.go` on the buffered channel `queue` of
capacity `cap`: the status code written and the channel afterwards.  `bind`
stands for `c.ShouldBindJSON(&event)` (`none` is its error).  The send sits in
a `select` with a `default` branch: it goes through when the buffer has room
and falls to `default` otherwise. -/
def HandleEvent {Req : Type} (bind : Req → Option Event) (queue : List Event) (cap : Nat)
    (body : Req) : Nat × List Event :=
  match bind body with
  | Option.none => (400, queue)
  | some event =>
    if !ValidEventTypes event.EventType then (400, queue)
    else if queue.length < cap then (202, queue ++ [event])
    else (503, queue)

/-- The local map `validTypes` of `Server.HandleEvent`. -/
def validTypes (t : String) : Bool :=
  t == "page_view" || t == "add_to_cart" || t == "purchase"

/-- `Server.HandleEvent` of `go-ingestion/main.go`: the status code written and
the messages published on `analytics:events` so far (a message is shown as the
event it serialises).  `marshalErr` and `publishErr` tell whether
`json.Marshal` and `redis.Publish` return an error. -/
def Server.HandleEvent {Req : Type} (bind : Req → Option Event) (marshalErr publishErr : Bool)
    (published : List Event) (body : Req) : Nat × List Event :=
  match bind body with
  | Option.none => (400, published)
  | some event =>
    if !validTypes event.EventType then (400, published)
    else if marshalErr then (500, published)
    else if publishErr then (500, published)
    else (202, published ++ [event])

/-- A JSON request body as its four members, each possibly missing;
`malformed` marks a body that is not a JSON object of that shape. -/
structure Body where
  malformed : Bool
  event_type : Option String
  timestamp : Option Int
  product_id : Option String
  order_amount : Option Nat
  deriving DecidableEq, Repr

/-- A binder honouring the struct tags of `Event`: `event_type` and
`timestamp` carry `binding:"required"`, so a missing or empty `event_type` and
a missing `timestamp` are errors; the optional members are copied. -/
def bindBody (b : Body) : Option Event :=
  if b.malformed then Option.none
  else
    match b.event_type, b.timestamp with
    | some t, some ts =>
      if t = "" then Option.none
      else some { EventType := t, Timestamp := ts, ProductID := b.product_id,
                  OrderAmount := b.order_amount }
    | _, _ => Option.none

/-! ## Sample data -/

/-- The purchase of the concrete scenario; 49.99 as a float64 has the bit
pattern 0x4048FEB851EB851F. -/
def samplePurchase : Event :=
  { EventType := "purchase", Timestamp := 1759401000000000000,
    ProductID := some "prod-1", OrderAmount := some 0x4048FEB851EB851F }

/-- The page view posted by `TestHandleEvent_ValidEvent`. -/
def samplePageView : Event :=
  { EventType := "page_view", Timestamp := 1759401000000000000,
    ProductID := some "prod-123", OrderAmount := Option.none }

/-- The body posted by `TestHandleEvent_ValidEvent`. -/
def samplePageViewBody : Body :=
  { malformed := false, event_type := some "page_view", timestamp := some 1759401000000000000,
    product_id := some "prod-123", order_amount := Option.none }

/-- The body posted by `TestHandleEvent_InvalidEventType`. -/
def sampleInvalidBody : Body :=
  { malformed := false, event_type := some "invalid_type",
    timestamp := some 1759401000000000000, product_id := Option.none,
    order_amount := Option.none }

/-- The event the body of `TestHandleEvent_InvalidEventType` binds to. -/
def sampleInvalid : Event :=
  { EventType := "invalid_type", Timestamp := 1759401000000000000,
    ProductID := Option.none, OrderAmount := Option.none }

/-- An oracle under which only `Begin` fails. -/
def Faults.beginFails : Faults :=
  { beginErr := true, prepareErr := false, execErr := fun _ => false, commitErr := false }

/-- An oracle under which only the second insert fails. -/
def Faults.secondExecFails : Faults :=
  { beginErr := false, prepareErr := false, execErr := fun i => i == 1, commitErr := false }

/-- An empty store. -/
def DB.empty : DB := { rows := [] }

/-- The in-process pipeline as `main` builds it: channel of capacity 1000,
nothing queued, empty batch, loop running. -/
def Pipeline.init (db : DB) : Pipeline :=
  { queue := [], cap := 1000, batch := [], db := db, running := true, handed := [] }

/-- The broker consumer as `NewConsumer` builds it: empty batch. -/
def BConsumer.init (db : DB) : BConsumer :=
  { batch := [], db := db, running := true }

/-- The select outcomes of a run of receive steps: the i-th event arrives with
the i-th oracle. -/
def recvs (evs : List (Event × Faults)) : List (Case × Faults) :=
  evs.map (fun p => (Case.recv p.1, p.2))

/-- The rows of the store that stem from live data of the loop: the batch
while `Start` is looping, nothing after it has returned. -/
def Pipeline.live (s : Pipeline) : List Row :=
  if s.running then s.batch.map Event.toRow else []

/-- The broker consumer's counterpart of `Pipeline.live`. -/
def BConsumer.live (c : BConsumer) : List Row :=
  if c.running then c.batch.map Event.toRow else []

/-- The event a select outcome of the in-process loop delivers, if any. -/
def Case.events : Case → List Event
  | Case.recv e => [e]
  | _ => []

/-- The event a select outcome of the broker loop delivers, if any. -/
def BCase.events : BCase → List Event
  | BCase.message (some e) => [e]
  | _ => []

/-- One hundred arrivals of the sample purchase, none with a fault. -/
def hundredPurchases : List (Event × Faults) :=
  List.replicate 100 (samplePurchase, Faults.none)

/-- Three arrivals: a page view and two purchases, none with a fault. -/
def threeArrivals : List (Event × Faults) :=
  [(samplePageView, Faults.none), (samplePurchase, Faults.none), (samplePurchase, Faults.none)]

/-- One hundred messages carrying the sample purchase, each arriving while
`Begin` fails. -/
def hundredFailing : List (BCase × Faults) :=
  List.replicate 100 (BCase.message (some samplePurchase), Faults.beginFails)

/-- The in-process pipeline right after `HandleEvent` accepted the sample page
view: the event sits in the channel, the batch is empty. -/
def Pipeline.afterAccept : Pipeline :=
  { Pipeline.init DB.empty with
    queue := (HandleEvent bindBody [] 1000 samplePageViewBody).2 }

/-- A broker consumer holding one event in its batch. -/
def BConsumer.holdingOne : BConsumer :=
  { batch := [samplePurchase], db := DB.empty, running := true }

/-! ## The committer -/

theorem execLoop_ok (f : Faults) (es : List Event) :
    ∀ (i : Nat) (tx : Tx), (∀ j, j < es.length → f.execErr (i + j) = false) →
      execLoop f i tx es = some { pending := tx.pending ++ es.map Event.toRow } := by
  induction es with
  | nil => intro i tx _; simp [execLoop]
  | cons e es ih =>
    intro i tx h
    have h0 : f.execErr i = false := by simpa using h 0 (by simp)
    have hs : ∀ j, j < es.length → f.execErr (i + 1 + j) = false := by
      intro j hj
      have := h (j + 1) (by simpa using hj)
      rwa [show i + 1 + j = i + (j + 1) by omega]
    simp [execLoop, Tx.Exec, h0, ih (i + 1) _ hs]

theorem execLoop_fail (f : Faults) (es : List Event) :
    ∀ (i : Nat) (tx : Tx), (∃ j, j < es.length ∧ f.execErr (i + j) = true) →
      execLoop f i tx es = Option.none := by
  induction es with
  | nil => intro i tx h; obtain ⟨j, hj, _⟩ := h; simp at hj
  | cons e es ih =>
    intro i tx h
    obtain ⟨j, hj, hf⟩ := h
    by_cases h0 : f.execErr i = true
    · simp [execLoop, Tx.Exec, h0]
    · have h0f : f.execErr i = false := by simpa using h0
      cases j with
      | zero => simp [h0f] at hf
      | succ k =>
        have : ∃ j, j < es.length ∧ f.execErr (i + 1 + j) = true :=
          ⟨k, by simpa using hj, by rwa [show i + 1 + k = i + (k + 1) by omega]⟩
        simp [execLoop, Tx.Exec, h0f, ih (i + 1) _ this]

theorem Faults.ok_iff (f : Faults) (n : Nat) :
    f.ok n = true ↔ f.beginErr = false ∧ f.prepareErr = false ∧
      (∀ j, j < n → f.execErr j = false) ∧ f.commitErr = false := by
  simp [Faults.ok, and_assoc]

theorem flushBatch_ok (db : DB) (f : Faults) (batch : List Event)
    (h : f.ok batch.length = true) :
    flushBatch db f batch = { rows := db.rows ++ batch.map Event.toRow } := by
  obtain ⟨hb, hp, he, hc⟩ := (Faults.ok_iff f _).1 h
  have hl := execLoop_ok f batch 0 { pending := [] } (by simpa using he)
  simp [flushBatch, DB.Begin, Tx.Prepare, Tx.Commit, hb, hp, hc, hl]

theorem flushBatch_fail (db : DB) (f : Faults) (batch : List Event)
    (h : f.ok batch.length = false) : flushBatch db f batch = db := by
  by_cases hb : f.beginErr = true
  · simp [flushBatch, DB.Begin, hb]
  by_cases hp : f.prepareErr = true
  · simp [flushBatch, DB.Begin, Tx.Prepare, Tx.Rollback, hb, hp]
  by_cases he : ∃ j, j < batch.length ∧ f.execErr (0 + j) = true
  · simp [flushBatch, DB.Begin, Tx.Prepare, Tx.Rollback, hb, hp, execLoop_fail f batch 0 _ he]
  · have he2 : ∀ j, j < batch.length → f.execErr (0 + j) = false := by
      intro j hj
      by_contra hc
      exact he ⟨j, hj, by simpa using hc⟩
    have hc : f.commitErr = true := by
      by_contra hc
      have : f.ok batch.length = true :=
        (Faults.ok_iff f _).2 ⟨by simpa using hb, by simpa using hp, by simpa using he2,
          by simpa using hc⟩
      simp [this] at h
    simp [flushBatch, DB.Begin, Tx.Prepare, Tx.Rollback, Tx.Commit, hb, hp, hc,
      execLoop_ok f batch 0 _ he2]

theorem flushBatch_rows (db : DB) (f : Faults) (batch : List Event) :
    (flushBatch db f batch).rows =
      if f.ok batch.length = true then db.rows ++ batch.map Event.toRow else db.rows := by
  by_cases h : f.ok batch.length = true
  · simp [h, flushBatch_ok db f batch h]
  · have hf : f.ok batch.length = false := by simpa using h
    simp [hf, flushBatch_fail db f batch hf]

theorem flush_ok (c : BConsumer) (f : Faults) (hne : c.batch ≠ [])
    (h : f.ok c.batch.length = true) :
    c.flush f = { c with db := { rows := c.db.rows ++ c.batch.map Event.toRow }, batch := [] } := by
  obtain ⟨hb, hp, he, hc⟩ := (Faults.ok_iff f _).1 h
  have hl := execLoop_ok f c.batch 0 { pending := [] } (by simpa using he)
  have hlen : c.batch.length ≠ 0 := by simpa using hne
  simp [BConsumer.flush, DB.Begin, Tx.Prepare, Tx.Commit, hb, hp, hc, hl, hne]

theorem flush_fail (c : BConsumer) (f : Faults) (h : f.ok c.batch.length = false) :
    c.flush f = c := by
  by_cases hne : c.batch = []
  · simp [BConsumer.flush, hne]
  by_cases hb : f.beginErr = true
  · simp [BConsumer.flush, DB.Begin, hb]
  by_cases hp : f.prepareErr = true
  · simp [BConsumer.flush, DB.Begin, Tx.Prepare, Tx.Rollback, hb, hp]
  by_cases he : ∃ j, j < c.batch.length ∧ f.execErr (0 + j) = true
  · simp [BConsumer.flush, DB.Begin, Tx.Prepare, Tx.Rollback, hb, hp,
      execLoop_fail f c.batch 0 _ he]
  · have he2 : ∀ j, j < c.batch.length → f.execErr (0 + j) = false := by
      intro j hj
      by_contra hc
      exact he ⟨j, hj, by simpa using hc⟩
    have hc : f.commitErr = true := by
      by_contra hc
      have : f.ok c.batch.length = true :=
        (Faults.ok_iff f _).2 ⟨by simpa using hb, by simpa using hp, by simpa using he2,
          by simpa using hc⟩
      simp [this] at h
    simp [BConsumer.flush, DB.Begin, Tx.Prepare, Tx.Rollback, Tx.Commit, hb, hp, hc,
      execLoop_ok f c.batch 0 _ he2]

theorem flush_nil (c : BConsumer) (f : Faults) (h : c.batch = []) : c.flush f = c := by
  simp [BConsumer.flush, h]

/-- Claim C1. For every batch, store and fault oracle, the committer of either
variant (`flushBatch` in-process, `flush` in the broker consumer) leaves the
store in one of two states: when begin, prepare, every insert and commit
succeed, the old rows followed by one row per event of the batch, in batch
order, with that event's four columns; when any of them fails, the old rows. -/
theorem C1_commit_all_or_nothing (db : DB) (f : Faults) (batch : List Event) (running : Bool) :
    (f.ok batch.length = true →
        (flushBatch db f batch).rows = db.rows ++ batch.map Event.toRow ∧
        (BConsumer.flush { batch := batch, db := db, running := running } f).db.rows
          = db.rows ++ batch.map Event.toRow) ∧
    (f.ok batch.length = false →
        (flushBatch db f batch).rows = db.rows ∧
        (BConsumer.flush { batch := batch, db := db, running := running } f).db.rows
          = db.rows) := by
  refine ⟨fun h => ⟨?_, ?_⟩, fun h => ⟨?_, ?_⟩⟩
  · rw [flushBatch_ok db f batch h]
  · by_cases hne : batch = []
    · subst hne; simp [BConsumer.flush]
    · rw [flush_ok _ f hne h]
  · rw [flushBatch_fail db f batch h]
  · rw [flush_fail _ f h]

/-! ## The in-process loop -/

theorem Pipeline.run_append (s : Pipeline) (xs ys : List (Case × Faults)) :
    s.run (xs ++ ys) = (s.run xs).run ys := by
  induction xs generalizing s with
  | nil => rfl
  | cons x xs ih => obtain ⟨i, f⟩ := x; simp [Pipeline.run, ih]

theorem Pipeline.run_stopped (s : Pipeline) (h : s.running = false)
    (xs : List (Case × Faults)) : s.run xs = s := by
  induction xs with
  | nil => rfl
  | cons x xs ih => obtain ⟨i, f⟩ := x; simp [Pipeline.run, Pipeline.step, h, ih]

theorem Pipeline.run_recvs_below (evs : List (Event × Faults)) :
    ∀ s : Pipeline, s.running = true → s.batch.length + evs.length < 100 →
      s.run (recvs evs) = { s with batch := s.batch ++ evs.map Prod.fst } := by
  induction evs with
  | nil => intro s _ _; simp [recvs, Pipeline.run]
  | cons p evs ih =>
    intro s hr hl
    simp only [List.length_cons] at hl
    have hlt : ¬ (s.batch ++ [p.1]).length ≥ 100 := by simp; omega
    have hstep : s.step (Case.recv p.1) p.2 = { s with batch := s.batch ++ [p.1] } := by
      simp only [Pipeline.step, hr, if_true, hlt, if_false]
    have := ih { s with batch := s.batch ++ [p.1] } hr (by simp; omega)
    simp only [recvs, List.map_cons, Pipeline.run] at this ⊢
    rw [hstep, this]
    simp

theorem Pipeline.run_recvs_hundred (s : Pipeline) (evs : List (Event × Faults))
    (hr : s.running = true) (hb : s.batch = []) (hl : evs.length = 100)
    (hf : ∀ p ∈ evs, p.2.ok 100 = true) :
    s.run (recvs evs) =
      { s with db := { rows := s.db.rows ++ evs.map (fun p => p.1.toRow) },
               batch := [], handed := s.handed ++ [evs.map Prod.fst] } := by
  have hne : evs ≠ [] := by intro h; simp [h] at hl
  obtain ⟨ini, p, rfl⟩ : ∃ ini p, evs = ini ++ [p] :=
    ⟨evs.dropLast, evs.getLast hne, (List.dropLast_append_getLast hne).symm⟩
  have hil : ini.length = 99 := by simpa using hl
  have h1 := Pipeline.run_recvs_below ini s hr (by simp [hb, hil])
  have hlen : (ini.map Prod.fst ++ [p.1]).length = 100 := by simp [hil]
  have hok : p.2.ok (ini.map Prod.fst ++ [p.1]).length = true := by
    rw [hlen]; exact hf p (by simp)
  have hrec : recvs (ini ++ [p]) = recvs ini ++ [(Case.recv p.1, p.2)] := by simp [recvs]
  rw [hrec, Pipeline.run_append, h1]
  simp only [Pipeline.run, Pipeline.step, hr, hb, List.nil_append, if_true]
  rw [if_pos (by rw [hlen]), flushBatch_ok _ _ _ hok]
  simp [Function.comp_def]

/-- Claim C2. In the in-process loop, from an empty batch, one hundred receive
steps with no tick in between and no persistence fault leave the store with
exactly one hundred new rows, those events in arrival order, and the batch
empty; no tick step occurs in the run. -/
theorem C2_size_triggered_flush (s : Pipeline) (evs : List (Event × Faults))
    (hr : s.running = true) (hb : s.batch = []) (hl : evs.length = 100)
    (hf : ∀ p ∈ evs, p.2.ok 100 = true) :
    (s.run (recvs evs)).db.rows = s.db.rows ++ evs.map (fun p => p.1.toRow) ∧
    (s.run (recvs evs)).db.rows.length = s.db.rows.length + 100 ∧
    (s.run (recvs evs)).batch = [] ∧
    (∀ x ∈ recvs evs, x.1 ≠ Case.tick) := by
  rw [Pipeline.run_recvs_hundred s evs hr hb hl hf]
  refine ⟨rfl, by simp [hl], rfl, ?_⟩
  intro x hx
  simp only [recvs, List.mem_map] at hx
  obtain ⟨p, _, rfl⟩ := hx
  simp

theorem C2_size_triggered_flush_witness :
    ((Pipeline.init DB.empty).run (recvs hundredPurchases)).db.rows
        = DB.empty.rows ++ hundredPurchases.map (fun p => p.1.toRow) ∧
    ((Pipeline.init DB.empty).run (recvs hundredPurchases)).db.rows.length
        = DB.empty.rows.length + 100 ∧
    ((Pipeline.init DB.empty).run (recvs hundredPurchases)).batch = [] ∧
    (∀ x ∈ recvs hundredPurchases, x.1 ≠ Case.tick) :=
  C2_size_triggered_flush (Pipeline.init DB.empty) hundredPurchases rfl rfl
    (by simp [hundredPurchases])
    (by
      intro p hp
      have : p = (samplePurchase, Faults.none) := by
        simpa [hundredPurchases] using List.eq_of_mem_replicate hp
      subst this
      simp [Faults.ok, Faults.none])

theorem Pipeline.tick_nil (s : Pipeline) (f : Faults) (hb : s.batch = []) :
    s.step Case.tick f = s := by
  simp [Pipeline.step, hb]

/-- Claim C3. In the in-process loop, from an empty batch, after any `n`
receive steps with `0 < n < 100` (and after each shorter run of them) the store
is unchanged and the batch holds the events in arrival order; the tick step
that follows, absent a persistence fault, adds exactly those `n` rows in
arrival order and empties the batch.  A tick step on an empty batch changes
nothing. -/
theorem C3_time_triggered_flush (s : Pipeline) (evs : List (Event × Faults)) (f : Faults)
    (hr : s.running = true) (hb : s.batch = []) (h0 : 0 < evs.length)
    (hl : evs.length < 100) (hf : f.ok evs.length = true) :
    (∀ k, (s.run (recvs (evs.take k))).db = s.db) ∧
    (s.run (recvs evs)).batch = evs.map Prod.fst ∧
    ((s.run (recvs evs)).step Case.tick f).db.rows
        = s.db.rows ++ evs.map (fun p => p.1.toRow) ∧
    ((s.run (recvs evs)).step Case.tick f).batch = [] ∧
    (∀ (t : Pipeline) (g : Faults), t.batch = [] → t.step Case.tick g = t) := by
  have hk : ∀ k, s.run (recvs (evs.take k)) =
      { s with batch := s.batch ++ (evs.take k).map Prod.fst } := by
    intro k
    apply Pipeline.run_recvs_below _ s hr
    have : (evs.take k).length ≤ evs.length := by simp
    simp [hb]; omega
  have hall := Pipeline.run_recvs_below evs s hr (by simp [hb]; omega)
  refine ⟨fun k => by rw [hk k], by rw [hall]; simp [hb], ?_, ?_,
    fun t g ht => Pipeline.tick_nil t g ht⟩
  · rw [hall]
    have hok : f.ok (evs.map Prod.fst).length = true := by simpa using hf
    have hpos : (evs.map Prod.fst).length > 0 := by simpa using h0
    simp only [Pipeline.step, hr, hb, List.nil_append, if_true, hpos]
    rw [flushBatch_ok _ _ _ hok]
    simp [Function.comp_def]
  · rw [hall]
    have hpos : (evs.map Prod.fst).length > 0 := by simpa using h0
    simp only [Pipeline.step, hr, hb, List.nil_append, if_true, hpos]

theorem C3_time_triggered_flush_witness :
    (∀ k, ((Pipeline.init DB.empty).run (recvs (threeArrivals.take k))).db = DB.empty) ∧
    ((Pipeline.init DB.empty).run (recvs threeArrivals)).batch
        = [samplePageView, samplePurchase, samplePurchase] ∧
    (((Pipeline.init DB.empty).run (recvs threeArrivals)).step Case.tick Faults.none).db.rows
        = [samplePageView.toRow, samplePurchase.toRow, samplePurchase.toRow] ∧
    (((Pipeline.init DB.empty).run (recvs threeArrivals)).step Case.tick Faults.none).batch
        = [] ∧
    (∀ (t : Pipeline) (g : Faults), t.batch = [] → t.step Case.tick g = t) :=
  C3_time_triggered_flush (Pipeline.init DB.empty) threeArrivals Faults.none rfl rfl
    (by decide) (by decide) (by decide)

/-! ### Bound on the batch -/

theorem Pipeline.step_bound (s : Pipeline) (i : Case) (f : Faults)
    (hb : s.batch.length < 100)
    (hh : ∀ b ∈ s.handed, 1 ≤ b.length ∧ b.length ≤ 100) :
    (s.step i f).batch.length < 100 ∧
    ∀ b ∈ (s.step i f).handed, 1 ≤ b.length ∧ b.length ≤ 100 := by
  unfold Pipeline.step
  by_cases hr : s.running = true
  · simp only [hr, if_true]
    cases i with
    | recv e =>
      by_cases hc : (s.batch ++ [e]).length ≥ 100
      · simp only [hc, if_true]
        refine ⟨by simp, ?_⟩
        intro b hbm
        rcases List.mem_append.1 hbm with h | h
        · exact hh b h
        · have : b = s.batch ++ [e] := by simpa using h
          subst this
          simp at hc ⊢
          omega
      · simp only [hc, if_false]
        exact ⟨by omega, hh⟩
    | tick =>
      by_cases hc : s.batch.length > 0
      · simp only [hc, if_true]
        refine ⟨by simp, ?_⟩
        intro b hbm
        rcases List.mem_append.1 hbm with h | h
        · exact hh b h
        · have : b = s.batch := by simpa using h
          subst this
          omega
      · simp only [hc, if_false]
        exact ⟨hb, hh⟩
    | done =>
      by_cases hc : s.batch.length > 0
      · simp only [hc, if_true]
        refine ⟨hb, ?_⟩
        intro b hbm
        rcases List.mem_append.1 hbm with h | h
        · exact hh b h
        · have : b = s.batch := by simpa using h
          subst this
          omega
      · simp only [hc, if_false]
        exact ⟨hb, hh⟩
  · simp only [hr]
    exact ⟨hb, hh⟩

theorem Pipeline.run_bound (xs : List (Case × Faults)) :
    ∀ s : Pipeline, s.batch.length < 100 →
      (∀ b ∈ s.handed, 1 ≤ b.length ∧ b.length ≤ 100) →
      (s.run xs).batch.length < 100 ∧
      ∀ b ∈ (s.run xs).handed, 1 ≤ b.length ∧ b.length ≤ 100 := by
  induction xs with
  | nil => intro s hb hh; exact ⟨hb, hh⟩
  | cons x xs ih =>
    intro s hb hh
    obtain ⟨i, f⟩ := x
    obtain ⟨h1, h2⟩ := Pipeline.step_bound s i f hb hh
    exact ih (s.step i f) h1 h2

/-- Claim C9. In the in-process loop started with an empty batch, after any
sequence of receive, tick and shutdown steps under any fault oracles, the
batch holds fewer than 100 events (so it does whenever the loop waits for its
next input), and every batch handed to `flushBatch` along the way has between
1 and 100 events. -/
theorem C9_batch_below_threshold (s : Pipeline) (xs : List (Case × Faults))
    (hb : s.batch = []) (hh : s.handed = []) :
    (s.run xs).batch.length < 100 ∧
    ∀ b ∈ (s.run xs).handed, 1 ≤ b.length ∧ b.length ≤ 100 := by
  apply Pipeline.run_bound xs s
  · simp [hb]
  · simp [hh]

theorem C9_batch_below_threshold_witness :
    ((Pipeline.init DB.empty).run
        (recvs threeArrivals ++ [(Case.tick, Faults.beginFails)])).batch.length < 100 ∧
    ∀ b ∈ ((Pipeline.init DB.empty).run
        (recvs threeArrivals ++ [(Case.tick, Faults.beginFails)])).handed,
      1 ≤ b.length ∧ b.length ≤ 100 :=
  C9_batch_below_threshold (Pipeline.init DB.empty)
    (recvs threeArrivals ++ [(Case.tick, Faults.beginFails)]) rfl rfl

/-! ### Rows written against events received -/

theorem flushBatch_cases (db : DB) (f : Faults) (batch : List Event) :
    flushBatch db f batch = db ∨
    flushBatch db f batch = { rows := db.rows ++ batch.map Event.toRow } := by
  by_cases h : f.ok batch.length = true
  · exact Or.inr (flushBatch_ok db f batch h)
  · exact Or.inl (flushBatch_fail db f batch (by simpa using h))

theorem flushBatch_written (db : DB) (f : Faults) (batch : List Event) :
    ∃ X, (flushBatch db f batch).rows = db.rows ++ X ∧
      List.Sublist X (batch.map Event.toRow) := by
  rcases flushBatch_cases db f batch with h | h
  · exact ⟨[], by simp [h], List.nil_sublist _⟩
  · exact ⟨batch.map Event.toRow, by simp [h], List.Sublist.refl _⟩

theorem Pipeline.step_written (s : Pipeline) (i : Case) (f : Faults) (hr : s.running = true) :
    ∃ X, (s.step i f).db.rows = s.db.rows ++ X ∧
      List.Sublist (X ++ (s.step i f).live) (s.live ++ i.events.map Event.toRow) := by
  unfold Pipeline.step
  simp only [hr, if_true]
  cases i with
  | recv e =>
    by_cases hc : (s.batch ++ [e]).length ≥ 100
    · simp only [hc, if_true]
      obtain ⟨X, hX, hsub⟩ := flushBatch_written s.db f (s.batch ++ [e])
      refine ⟨X, hX, ?_⟩
      simpa [Pipeline.live, hr, Case.events] using hsub
    · simp only [hc, if_false]
      exact ⟨[], by simp, by simp [Pipeline.live, hr, Case.events]⟩
  | tick =>
    by_cases hc : s.batch.length > 0
    · simp only [hc, if_true]
      obtain ⟨X, hX, hsub⟩ := flushBatch_written s.db f s.batch
      refine ⟨X, hX, ?_⟩
      simpa [Pipeline.live, hr, Case.events] using hsub
    · simp only [hc, if_false]
      exact ⟨[], by simp, by simp [Pipeline.live, hr, Case.events]⟩
  | done =>
    by_cases hc : s.batch.length > 0
    · simp only [hc, if_true]
      obtain ⟨X, hX, hsub⟩ := flushBatch_written s.db f s.batch
      refine ⟨X, hX, ?_⟩
      simpa [Pipeline.live, hr, Case.events] using hsub
    · simp only [hc, if_false]
      exact ⟨[], by simp, by simp [Pipeline.live, hr, Case.events]⟩

theorem Pipeline.step_done_running (s : Pipeline) (f : Faults) (hr : s.running = true) :
    (s.step Case.done f).running = false := by
  unfold Pipeline.step
  by_cases hc : s.batch.length > 0 <;> simp [hr, hc]

theorem Pipeline.run_written (xs : List (Case × Faults)) :
    ∀ s : Pipeline, ∃ A, (s.run xs).db.rows = s.db.rows ++ A ∧
      List.Sublist (A ++ (s.run xs).live) (s.live ++ (Pipeline.received xs).map Event.toRow) := by
  induction xs with
  | nil => intro s; exact ⟨[], by simp [Pipeline.run], by simp [Pipeline.run, Pipeline.received]⟩
  | cons x xs ih =>
    intro s
    obtain ⟨i, f⟩ := x
    by_cases hr : s.running = true
    · obtain ⟨X, hX, hXs⟩ := Pipeline.step_written s i f hr
      cases i with
      | done =>
        have hstop := Pipeline.step_done_running s f hr
        refine ⟨X, ?_, ?_⟩
        · simp only [Pipeline.run]
          rw [Pipeline.run_stopped _ hstop, hX]
        · simp only [Pipeline.run]
          rw [Pipeline.run_stopped _ hstop]
          simpa [Pipeline.received, Case.events] using hXs
      | recv e =>
        obtain ⟨A, hA, hAs⟩ := ih (s.step (Case.recv e) f)
        refine ⟨X ++ A, ?_, ?_⟩
        · simp only [Pipeline.run]
          rw [hA, hX, List.append_assoc]
        · simp only [Pipeline.run, Pipeline.received, List.map_cons]
          have h1 := List.Sublist.append (List.Sublist.refl X) hAs
          have h2 := List.Sublist.append hXs
            (List.Sublist.refl ((Pipeline.received xs).map Event.toRow))
          have h3 := h1.trans (by simpa [List.append_assoc] using h2)
          simpa [List.append_assoc, Case.events] using h3
      | tick =>
        obtain ⟨A, hA, hAs⟩ := ih (s.step Case.tick f)
        refine ⟨X ++ A, ?_, ?_⟩
        · simp only [Pipeline.run]
          rw [hA, hX, List.append_assoc]
        · simp only [Pipeline.run, Pipeline.received]
          have h1 := List.Sublist.append (List.Sublist.refl X) hAs
          have h2 := List.Sublist.append hXs
            (List.Sublist.refl ((Pipeline.received xs).map Event.toRow))
          have h3 := h1.trans (by simpa [List.append_assoc] using h2)
          simpa [List.append_assoc, Case.events] using h3
    · have hr2 : s.running = false := by simpa using hr
      refine ⟨[], ?_, ?_⟩
      · rw [Pipeline.run_stopped _ hr2]; simp
      · rw [Pipeline.run_stopped _ hr2]; simp [Pipeline.live, hr2]

/-! ## The broker consumer's loop -/

theorem flush_cases (c : BConsumer) (f : Faults) :
    c.flush f = c ∨
    c.flush f = { c with db := { rows := c.db.rows ++ c.batch.map Event.toRow }, batch := [] } := by
  by_cases hne : c.batch = []
  · exact Or.inl (flush_nil c f hne)
  by_cases h : f.ok c.batch.length = true
  · exact Or.inr (flush_ok c f hne h)
  · exact Or.inl (flush_fail c f (by simpa using h))

theorem BConsumer.brun_stopped (c : BConsumer) (h : c.running = false)
    (xs : List (BCase × Faults)) : c.run xs = c := by
  induction xs with
  | nil => rfl
  | cons x xs ih => obtain ⟨i, f⟩ := x; simp [BConsumer.run, BConsumer.step, h, ih]

theorem flush_written (c : BConsumer) (f : Faults) :
    (c.flush f).running = c.running ∧
    ∃ X, (c.flush f).db.rows = c.db.rows ++ X ∧
      List.Sublist (X ++ (c.flush f).batch.map Event.toRow) (c.batch.map Event.toRow) := by
  rcases flush_cases c f with h | h
  · rw [h]; exact ⟨rfl, [], by simp, by simp⟩
  · rw [h]; exact ⟨rfl, c.batch.map Event.toRow, by simp, by simp⟩

theorem BConsumer.step_message_flush (c : BConsumer) (e : Event) (f : Faults)
    (hr : c.running = true) (hc : (c.batch ++ [e]).length ≥ 100) :
    c.step (BCase.message (some e)) f = BConsumer.flush { c with batch := c.batch ++ [e] } f := by
  unfold BConsumer.step
  rw [if_pos hr]
  dsimp only
  rw [if_pos hc]

theorem BConsumer.step_message_keep (c : BConsumer) (e : Event) (f : Faults)
    (hr : c.running = true) (hc : ¬ (c.batch ++ [e]).length ≥ 100) :
    c.step (BCase.message (some e)) f = { c with batch := c.batch ++ [e] } := by
  unfold BConsumer.step
  rw [if_pos hr]
  dsimp only
  rw [if_neg hc]

theorem BConsumer.bstep_written (c : BConsumer) (i : BCase) (f : Faults)
    (hr : c.running = true) :
    ∃ X, (c.step i f).db.rows = c.db.rows ++ X ∧
      List.Sublist (X ++ (c.step i f).live) (c.live ++ i.events.map Event.toRow) := by
  cases i with
  | message d =>
    cases d with
    | none => exact ⟨[], by simp [BConsumer.step], by simp [BConsumer.step, BCase.events]⟩
    | some e =>
      by_cases hc : (c.batch ++ [e]).length ≥ 100
      · rw [BConsumer.step_message_flush c e f hr hc]
        obtain ⟨hrun, X, hX, hsub⟩ := flush_written { c with batch := c.batch ++ [e] } f
        refine ⟨X, hX, ?_⟩
        have hrun2 : (BConsumer.flush { c with batch := c.batch ++ [e] } f).running = true := by
          rw [hrun]; exact hr
        rw [BConsumer.live, if_pos hrun2, BConsumer.live, if_pos hr]
        simpa [BCase.events] using hsub
      · rw [BConsumer.step_message_keep c e f hr hc]
        refine ⟨[], by simp, ?_⟩
        rw [BConsumer.live, BConsumer.live, if_pos hr, if_pos hr]
        simp [BCase.events]
  | tick =>
    have hstep : c.step BCase.tick f = c.flush f := by simp [BConsumer.step, hr]
    rw [hstep]
    obtain ⟨hrun, X, hX, hsub⟩ := flush_written c f
    refine ⟨X, hX, ?_⟩
    rw [BConsumer.live, if_pos (hrun.trans hr), BConsumer.live, if_pos hr]
    simpa [BCase.events] using hsub
  | signal =>
    have hstep : c.step BCase.signal f = { c.flush f with running := false } := by
      simp [BConsumer.step, hr]
    rw [hstep]
    obtain ⟨_, X, hX, hsub⟩ := flush_written c f
    refine ⟨X, hX, ?_⟩
    rw [BConsumer.live, BConsumer.live, if_pos hr]
    have : List.Sublist X (X ++ (c.flush f).batch.map Event.toRow) :=
      List.sublist_append_left _ _
    simpa [BCase.events] using this.trans hsub

theorem BConsumer.brun_written (xs : List (BCase × Faults)) :
    ∀ c : BConsumer, ∃ A, (c.run xs).db.rows = c.db.rows ++ A ∧
      List.Sublist (A ++ (c.run xs).live)
        (c.live ++ (BConsumer.received xs).map Event.toRow) := by
  induction xs with
  | nil =>
    intro c
    exact ⟨[], by simp [BConsumer.run], by simp [BConsumer.run, BConsumer.received]⟩
  | cons x xs ih =>
    intro c
    obtain ⟨i, f⟩ := x
    by_cases hr : c.running = true
    · obtain ⟨X, hX, hXs⟩ := BConsumer.bstep_written c i f hr
      by_cases hsig : i = BCase.signal
      · subst hsig
        have hstop : (c.step BCase.signal f).running = false := by
          simp [BConsumer.step, hr]
        refine ⟨X, ?_, ?_⟩
        · simp only [BConsumer.run]
          rw [BConsumer.brun_stopped _ hstop, hX]
        · simp only [BConsumer.run]
          rw [BConsumer.brun_stopped _ hstop]
          simpa [BConsumer.received, BCase.events] using hXs
      · obtain ⟨A, hA, hAs⟩ := ih (c.step i f)
        have hrec : BConsumer.received ((i, f) :: xs) = i.events ++ BConsumer.received xs := by
          cases i with
          | message d => cases d <;> simp [BConsumer.received, BCase.events]
          | tick => simp [BConsumer.received, BCase.events]
          | signal => exact absurd rfl hsig
        refine ⟨X ++ A, ?_, ?_⟩
        · simp only [BConsumer.run]
          rw [hA, hX, List.append_assoc]
        · simp only [BConsumer.run]
          rw [hrec]
          have h1 := List.Sublist.append (List.Sublist.refl X) hAs
          have h2 := List.Sublist.append hXs
            (List.Sublist.refl ((BConsumer.received xs).map Event.toRow))
          have h3 := h1.trans (by simpa [List.append_assoc] using h2)
          simpa [List.append_assoc] using h3
    · have hr2 : c.running = false := by simpa using hr
      refine ⟨[], ?_, ?_⟩
      · rw [BConsumer.brun_stopped _ hr2]; simp
      · rw [BConsumer.brun_stopped _ hr2]; simp [BConsumer.live, hr2]

/-- Claim C4. For every finite sequence of loop steps and every schedule of
persistence faults, in the in-process loop and in the broker consumer's loop
started with an empty batch, the rows added to the store form a sub-sequence
of the events received (in order, each occurrence used at most once), so their
number never exceeds the number of events received. -/
theorem C4_no_duplication (s : Pipeline) (xs : List (Case × Faults))
    (c : BConsumer) (ys : List (BCase × Faults)) (hs : s.batch = []) (hc : c.batch = []) :
    (∃ A, (s.run xs).db.rows = s.db.rows ++ A ∧
        List.Sublist A ((Pipeline.received xs).map Event.toRow) ∧
        A.length ≤ (Pipeline.received xs).length) ∧
    (∃ B, (c.run ys).db.rows = c.db.rows ++ B ∧
        List.Sublist B ((BConsumer.received ys).map Event.toRow) ∧
        B.length ≤ (BConsumer.received ys).length) := by
  constructor
  · obtain ⟨A, hA, hsub⟩ := Pipeline.run_written xs s
    have hlive : s.live = [] := by simp [Pipeline.live, hs]
    rw [hlive, List.nil_append] at hsub
    have hA2 : List.Sublist A ((Pipeline.received xs).map Event.toRow) :=
      (List.sublist_append_left A _).trans hsub
    exact ⟨A, hA, hA2, by simpa using hA2.length_le⟩
  · obtain ⟨B, hB, hsub⟩ := BConsumer.brun_written ys c
    have hlive : c.live = [] := by simp [BConsumer.live, hc]
    rw [hlive, List.nil_append] at hsub
    have hB2 : List.Sublist B ((BConsumer.received ys).map Event.toRow) :=
      (List.sublist_append_left B _).trans hsub
    exact ⟨B, hB, hB2, by simpa using hB2.length_le⟩

theorem C4_no_duplication_witness :
    (∃ A, ((Pipeline.init DB.empty).run
          (recvs threeArrivals ++ [(Case.tick, Faults.beginFails)])).db.rows
          = (Pipeline.init DB.empty).db.rows ++ A ∧
        List.Sublist A ((Pipeline.received
          (recvs threeArrivals ++ [(Case.tick, Faults.beginFails)])).map Event.toRow) ∧
        A.length ≤ (Pipeline.received
          (recvs threeArrivals ++ [(Case.tick, Faults.beginFails)])).length) ∧
    (∃ B, ((BConsumer.init DB.empty).run
          [(BCase.message (some samplePurchase), Faults.none), (BCase.tick, Faults.beginFails),
           (BCase.tick, Faults.none)]).db.rows
          = (BConsumer.init DB.empty).db.rows ++ B ∧
        List.Sublist B ((BConsumer.received
          [(BCase.message (some samplePurchase), Faults.none), (BCase.tick, Faults.beginFails),
           (BCase.tick, Faults.none)]).map Event.toRow) ∧
        B.length ≤ (BConsumer.received
          [(BCase.message (some samplePurchase), Faults.none), (BCase.tick, Faults.beginFails),
           (BCase.tick, Faults.none)]).length) :=
  C4_no_duplication (Pipeline.init DB.empty)
    (recvs threeArrivals ++ [(Case.tick, Faults.beginFails)])
    (BConsumer.init DB.empty)
    [(BCase.message (some samplePurchase), Faults.none), (BCase.tick, Faults.beginFails),
     (BCase.tick, Faults.none)] rfl rfl

theorem C1_commit_all_or_nothing_witness :
    (Faults.secondExecFails.ok [samplePageView, samplePurchase].length = true →
        (flushBatch DB.empty Faults.secondExecFails [samplePageView, samplePurchase]).rows
          = DB.empty.rows ++ [samplePageView, samplePurchase].map Event.toRow ∧
        (BConsumer.flush { batch := [samplePageView, samplePurchase], db := DB.empty,
                           running := true } Faults.secondExecFails).db.rows
          = DB.empty.rows ++ [samplePageView, samplePurchase].map Event.toRow) ∧
    (Faults.secondExecFails.ok [samplePageView, samplePurchase].length = false →
        (flushBatch DB.empty Faults.secondExecFails [samplePageView, samplePurchase]).rows
          = DB.empty.rows ∧
        (BConsumer.flush { batch := [samplePageView, samplePurchase], db := DB.empty,
                           running := true } Faults.secondExecFails).db.rows
          = DB.empty.rows) :=
  C1_commit_all_or_nothing DB.empty Faults.secondExecFails [samplePageView, samplePurchase] true

/-! ## Shutdown -/

/-- Claim C5, refuted as stated. `HandleEvent` accepts the sample page view
(202) into the channel; the loop then takes its shutdown step with no
persistence fault and returns, and the store holds no row: the event is still
in the channel. -/
theorem C5_queue_not_drained :
    (HandleEvent bindBody [] 1000 samplePageViewBody).1 = 202 ∧
    samplePageView ∈ Pipeline.afterAccept.queue ∧
    (Pipeline.afterAccept.shutdown Faults.none).running = false ∧
    (Pipeline.afterAccept.shutdown Faults.none).db.rows = [] ∧
    samplePageView.toRow ∉ (Pipeline.afterAccept.shutdown Faults.none).db.rows ∧
    (Pipeline.afterAccept.shutdown Faults.none).queue = [samplePageView] := by
  decide

/-- Claim C5, amended. When the in-process loop takes its shutdown step and
no persistence fault occurs, the loop terminates with every event of the batch
in the store (the old rows followed by the batch, in order); the channel is not
read, so events still queued stay queued and are not written. -/
theorem C5_shutdown_flushes_batch (s : Pipeline) (f : Faults) (hr : s.running = true)
    (hf : f.ok s.batch.length = true) :
    (s.shutdown f).running = false ∧
    (s.shutdown f).db.rows = s.db.rows ++ s.batch.map Event.toRow ∧
    (∀ e ∈ s.batch, e.toRow ∈ (s.shutdown f).db.rows) ∧
    (s.shutdown f).queue = s.queue := by
  have hrows : (s.shutdown f).db.rows = s.db.rows ++ s.batch.map Event.toRow := by
    unfold Pipeline.shutdown Pipeline.step
    by_cases hc : s.batch.length > 0
    · simp only [hr, if_true, hc]
      rw [flushBatch_ok _ _ _ hf]
    · have hnil : s.batch = [] := by
        cases hb : s.batch with
        | nil => rfl
        | cons a t => simp [hb] at hc
      simp [hr, hnil]
  refine ⟨Pipeline.step_done_running s f hr, hrows, ?_, ?_⟩
  · intro e he
    rw [hrows]
    exact List.mem_append_right _ (List.mem_map_of_mem _ he)
  · unfold Pipeline.shutdown Pipeline.step
    by_cases hc : s.batch.length > 0 <;> simp [hr, hc]

theorem C5_shutdown_flushes_batch_witness :
    (({ Pipeline.afterAccept with batch := [samplePurchase] } : Pipeline).shutdown
        Faults.none).running = false ∧
    (({ Pipeline.afterAccept with batch := [samplePurchase] } : Pipeline).shutdown
        Faults.none).db.rows
      = ({ Pipeline.afterAccept with batch := [samplePurchase] } : Pipeline).db.rows
          ++ [samplePurchase].map Event.toRow ∧
    (∀ e ∈ [samplePurchase],
      e.toRow ∈ (({ Pipeline.afterAccept with batch := [samplePurchase] } : Pipeline).shutdown
        Faults.none).db.rows) ∧
    (({ Pipeline.afterAccept with batch := [samplePurchase] } : Pipeline).shutdown
        Faults.none).queue = Pipeline.afterAccept.queue :=
  C5_shutdown_flushes_batch { Pipeline.afterAccept with batch := [samplePurchase] }
    Faults.none rfl (by decide)

/-! ## Failed flush in the broker consumer -/

/-- Claim C6, evaluated on the code. A broker consumer holds one event; `flush`
fails at `Begin`, at `Prepare`, at the insert or at `Commit`: each time the
batch still holds the event afterwards and the store is unchanged, and the
next flush, without a fault, writes the event. -/
theorem C6_failed_flush_keeps_batch :
    (BConsumer.holdingOne.flush Faults.beginFails).batch = [samplePurchase] ∧
    (BConsumer.holdingOne.flush
      { Faults.none with prepareErr := true }).batch = [samplePurchase] ∧
    (BConsumer.holdingOne.flush
      { Faults.none with execErr := fun _ => true }).batch = [samplePurchase] ∧
    (BConsumer.holdingOne.flush
      { Faults.none with commitErr := true }).batch = [samplePurchase] ∧
    (BConsumer.holdingOne.flush Faults.beginFails).db.rows = [] ∧
    ((BConsumer.holdingOne.flush Faults.beginFails).flush Faults.none).db.rows
      = [samplePurchase.toRow] ∧
    ((BConsumer.init DB.empty).run
      [(BCase.message (some samplePurchase), Faults.none), (BCase.tick, Faults.beginFails),
       (BCase.tick, Faults.none)]).db.rows = [samplePurchase.toRow] := by
  decide

/-! ## Ingress -/

theorem ValidEventTypes_of_enum (t : String)
    (h : t = "page_view" ∨ t = "add_to_cart" ∨ t = "purchase") : ValidEventTypes t = true := by
  rcases h with h | h | h <;> subst h <;> decide

theorem ValidEventTypes_of_not_enum (t : String)
    (h : t ≠ "page_view" ∧ t ≠ "add_to_cart" ∧ t ≠ "purchase") : ValidEventTypes t = false := by
  obtain ⟨h1, h2, h3⟩ := h
  simp [ValidEventTypes, h1, h2, h3]

theorem validTypes_eq (t : String) : validTypes t = ValidEventTypes t := rfl

/-- Claim C7. For every request whose body binds to an event with `event_type`
page_view, add_to_cart or purchase, the in-process `HandleEvent` returns (it is
a total function of the channel contents): with fewer events queued than the
capacity the response is 202 and the channel gains exactly that event at its
tail; with the channel at capacity the response is 503 and the channel is
unchanged. -/
theorem C7_accept_or_reject {Req : Type} (bind : Req → Option Event) (body : Req)
    (event : Event) (queue : List Event) (cap : Nat) (hbind : bind body = some event)
    (htype : event.EventType = "page_view" ∨ event.EventType = "add_to_cart" ∨
      event.EventType = "purchase") :
    (queue.length < cap → HandleEvent bind queue cap body = (202, queue ++ [event])) ∧
    (queue.length = cap → HandleEvent bind queue cap body = (503, queue)) := by
  have hv := ValidEventTypes_of_enum _ htype
  constructor
  · intro h
    simp [HandleEvent, hbind, hv, h]
  · intro h
    simp [HandleEvent, hbind, hv, h]

theorem C7_accept_or_reject_witness :
    (([] : List Event).length < 10 →
      HandleEvent bindBody [] 10 samplePageViewBody = (202, [] ++ [samplePageView])) ∧
    (([] : List Event).length = 10 →
      HandleEvent bindBody [] 10 samplePageViewBody = (503, [])) :=
  C7_accept_or_reject bindBody samplePageViewBody samplePageView [] 10 (by decide)
    (Or.inl (by decide))

/-- Claim C8. For every request whose `event_type` is none of page_view,
add_to_cart, purchase (the body does not bind at all, as with a missing or
empty type, or it binds to an event of another type), `HandleEvent` answers
400 in both variants; the channel is unchanged in the in-process variant and
nothing is published in the broker variant. -/
theorem C8_invalid_type_rejected {Req : Type} (bind : Req → Option Event) (body : Req)
    (queue : List Event) (cap : Nat) (marshalErr publishErr : Bool) (published : List Event)
    (h : ∀ event, bind body = some event →
      event.EventType ≠ "page_view" ∧ event.EventType ≠ "add_to_cart" ∧
      event.EventType ≠ "purchase") :
    HandleEvent bind queue cap body = (400, queue) ∧
    Server.HandleEvent bind marshalErr publishErr published body = (400, published) := by
  cases hb : bind body with
  | none => simp [HandleEvent, Server.HandleEvent, hb]
  | some event =>
    have hv := ValidEventTypes_of_not_enum _ (h event hb)
    simp [HandleEvent, Server.HandleEvent, hb, hv, validTypes_eq]

theorem C8_invalid_type_rejected_witness :
    HandleEvent bindBody [] 10 sampleInvalidBody = (400, []) ∧
    Server.HandleEvent bindBody false false [] sampleInvalidBody = (400, []) :=
  C8_invalid_type_rejected bindBody sampleInvalidBody [] 10 false false [] (by
    intro event he
    have h2 : bindBody sampleInvalidBody = some sampleInvalid := by decide
    rw [h2] at he
    have h3 : event = sampleInvalid := (Option.some.inj he).symm
    rw [h3]
    decide)

/-! ## Batch bound in the broker consumer -/

theorem BConsumer.brun_append (c : BConsumer) (xs ys : List (BCase × Faults)) :
    c.run (xs ++ ys) = (c.run xs).run ys := by
  induction xs generalizing c with
  | nil => rfl
  | cons x xs ih => obtain ⟨i, f⟩ := x; simp [BConsumer.run, ih]

theorem BConsumer.run_failing (n : Nat) :
    ∀ c : BConsumer, c.running = true →
      (c.run (List.replicate n (BCase.message (some samplePurchase), Faults.beginFails)))
        = { c with batch := c.batch ++ List.replicate n samplePurchase } := by
  induction n with
  | zero => intro c _; simp [BConsumer.run]
  | succ n ih =>
    intro c hr
    have hstep : c.step (BCase.message (some samplePurchase)) Faults.beginFails
        = { c with batch := c.batch ++ [samplePurchase] } := by
      by_cases hc : (c.batch ++ [samplePurchase]).length ≥ 100
      · rw [BConsumer.step_message_flush c _ _ hr hc]
        exact flush_fail _ _ (by simp [Faults.ok, Faults.beginFails])
      · exact BConsumer.step_message_keep c _ _ hr hc
    simp only [List.replicate_succ, BConsumer.run]
    rw [hstep, ih { c with batch := c.batch ++ [samplePurchase] } hr]
    simp [List.replicate_succ]

/-- Claim C10, evaluated on the code. The broker consumer starts with an empty
batch and receives 100 messages and then one more while `Begin` fails: each
flush returns early without resetting the batch, which then holds 101 events;
the next tick, without a fault, writes 101 rows in one transaction. -/
theorem C10_batch_exceeds_threshold :
    ((BConsumer.init DB.empty).run hundredFailing).batch.length = 100 ∧
    ((BConsumer.init DB.empty).run
      (hundredFailing ++ [(BCase.message (some samplePurchase), Faults.beginFails)])).batch.length
      = 101 ∧
    ((BConsumer.init DB.empty).run
      (hundredFailing ++ [(BCase.message (some samplePurchase), Faults.beginFails),
        (BCase.tick, Faults.none)])).db.rows.length = 101 := by
  have h100 := BConsumer.run_failing 100 (BConsumer.init DB.empty) rfl
  refine ⟨?_, ?_, ?_⟩
  · rw [hundredFailing, h100]; simp [BConsumer.init]
  · have h101 := BConsumer.run_failing 101 (BConsumer.init DB.empty) rfl
    have : hundredFailing ++ [(BCase.message (some samplePurchase), Faults.beginFails)]
        = List.replicate 101 (BCase.message (some samplePurchase), Faults.beginFails) := by
      simp [hundredFailing, List.replicate_succ']
    rw [this, h101]; simp [BConsumer.init]
  · have h101 := BConsumer.run_failing 101 (BConsumer.init DB.empty) rfl
    have : hundredFailing ++ [(BCase.message (some samplePurchase), Faults.beginFails),
          (BCase.tick, Faults.none)]
        = List.replicate 101 (BCase.message (some samplePurchase), Faults.beginFails)
          ++ [(BCase.tick, Faults.none)] := by
      simp [hundredFailing, List.replicate_succ']
    rw [this, BConsumer.brun_append, h101]
    have hne : (BConsumer.init DB.empty).batch ++ List.replicate 101 samplePurchase ≠ [] := by
      simp [BConsumer.init, List.replicate_succ]
    have hfl := flush_ok { BConsumer.init DB.empty with
        batch := (BConsumer.init DB.empty).batch ++ List.replicate 101 samplePurchase }
      Faults.none hne (by simp [Faults.ok, Faults.none])
    simp only [BConsumer.run, BConsumer.step]
    rw [if_pos (by rfl)]
    rw [hfl]
    simp [BConsumer.init, DB.empty]

end Analytics
